import Mathlib

/-!
# Verification of the real-time presence and whisper relay in `vmbbz/unheard`

This file shallowly embeds the websocket engine of `src/server.ts`.  The file
contains two near-duplicate server programs separated by a document marker:

* variant 1 ("STABLE PRODUCTION SERVER", lines 207-262): handlers
  `join_circle`, `voice_activity`, `send_whisper`, `disconnect` over
  `activeRooms : Map<string, Map<string, User>>`;
* variant 2 (lines 481-520): the same four handlers over
  `activeRooms : Map<string, RoomState>` where `RoomState` wraps a
  `members` map and an optional `activeAsset`.

JavaScript `Map`s are embedded as insertion-ordered association lists:
`set` overwrites in place when the key is present and appends otherwise,
`delete` removes the entry, and iteration (`values()`, `forEach`) follows
insertion order — exactly the JS specification of `Map`.

Payload fields that the client may omit are modelled as `Option String`
(`none` is JavaScript `undefined`); the handlers perform no validation, so
`none` flows into map keys and `||`-defaults exactly as `undefined` does in
the source.  Template-literal coercion of `undefined` to the string
`"undefined"` is modelled by `jsTemplate`.

Socket.io semantics used by the embedding:
* `io.emit(ev, x)` delivers the packet to every connected socket;
* `io.to(roomId).emit(ev, x)` delivers to the sockets currently joined to
  the socket.io room `roomId`.  Every `socket.join(roomId)` in the source is
  paired with the presence-table insertion, and disconnection removes the
  socket from its socket.io rooms before the `disconnect` handler's emits,
  so for the states this server reaches the socket.io room membership
  coincides with the presence-table key set; broadcast targets are embedded
  accordingly.
* each client registers exactly one whisper listener, on the event name
  built from its own user id (`App.tsx` line 47:
  `socketRef.current.on('whisper_inbox_' + user.id, ...)`); the second
  component of a `connected` entry records that registered identity.
-/

set_option maxHeartbeats 1000000

namespace Unheard

universe u v

variable {κ : Type u} {β : Type v} [DecidableEq κ]

/-- JS `Map.prototype.has`. -/
def mapHas : List (κ × β) → κ → Bool
  | [], _ => false
  | p :: m, k => if p.1 = k then true else mapHas m k

/-- JS `Map.prototype.get` (first entry with the key; the handlers never
create duplicate keys). -/
def mapGet : List (κ × β) → κ → Option β
  | [], _ => none
  | p :: m, k => if p.1 = k then some p.2 else mapGet m k

/-- Overwrite every entry carrying the key, keeping its position. -/
def mapReplace : List (κ × β) → κ → β → List (κ × β)
  | [], _, _ => []
  | p :: m, k, v => (if p.1 = k then (k, v) else p) :: mapReplace m k v

/-- JS `Map.prototype.set`: overwrite in place when present, append when
absent. -/
def mapSet (m : List (κ × β)) (k : κ) (v : β) : List (κ × β) :=
  if mapHas m k then mapReplace m k v else m ++ [(k, v)]

/-- JS `Map.prototype.delete` (as a pure value; the caller keeps the rest). -/
def mapDelete : List (κ × β) → κ → List (κ × β)
  | [], _ => []
  | p :: m, k => if p.1 = k then mapDelete m k else p :: mapDelete m k

/-- The `User` record of variant 1 (`server.ts` lines 20-25) and the
`Member` record of variant 2 (lines 467-472).  `userId` and `name` come
from the client payload and may be `undefined`; `isSpeaking` is `none` when
the property is absent (variant 2's join never writes it). -/
structure User where
  socketId : String
  userId : Option String
  name : Option String
  isSpeaking : Option Bool
deriving DecidableEq, Repr

/-- One room's member map, keyed by socket id. -/
abbrev Room := List (String × User)

/-- The raw `msgData` payload a client sends with `send_whisper`; every
field may be missing. -/
structure WhisperPayload where
  senderId : Option String
  receiverId : Option String
  cipherText : Option String
  type : Option String
  sharedCircleId : Option String
deriving DecidableEq, Repr

/-- The `Message` document variant 1 constructs (`server.ts` lines 229-237). -/
structure MessageW where
  senderId : String
  receiverId : String
  cipherText : String
  timestamp : Nat
  type : String
  sharedCircleId : Option String
  isRead : Bool
deriving DecidableEq, Repr

/-- JS `x || d` on a string-or-undefined value: the default is taken when
the value is `undefined` or the empty string (both falsy). -/
def jsOr (x : Option String) (d : String) : String :=
  match x with
  | none => d
  | some s => if s = "" then d else s

/-- JS template-literal coercion of a string-or-undefined value:
`` `${undefined}` `` is the string `"undefined"`. -/
def jsTemplate (x : Option String) : String :=
  match x with
  | none => "undefined"
  | some s => s

/-- One socket.io packet published by the server.  `targets` is the set of
socket ids the transport delivers the packet to. -/
inductive Emit where
  | presenceUpdate (targets : List String) (roomId : Option String) (members : List User)
  | userSpeaking (targets : List String) (roomId : Option String)
      (socketId : String) (isSpeaking : Option Bool)
  | whisperInbox (targets : List String) (event : String) (message : MessageW)
  | whisperInboxRaw (targets : List String) (event : String) (payload : WhisperPayload)
deriving DecidableEq, Repr

/-- The socket ids a packet is delivered to. -/
def emitTargets : Emit → List String
  | .presenceUpdate t _ _ => t
  | .userSpeaking t _ _ _ => t
  | .whisperInbox t _ _ => t
  | .whisperInboxRaw t _ _ => t

/-- Variant-1 server state: the live connections (socket id paired with the
user identity whose inbox event the client listens on) and `activeRooms`
(`server.ts` line 71). -/
structure ServerState where
  connected : List (String × String)
  activeRooms : List (Option String × Room)
deriving DecidableEq, Repr

/-- Result of one handler dispatch: the new state, the packets published,
and the error messages logged. -/
structure Out where
  state : ServerState
  emits : List Emit
  logs : List String
deriving DecidableEq, Repr

/-- `join_circle` handler, variant 1 (`server.ts` lines 210-218). -/
def joinCircle (st : ServerState) (sid : String) (roomId userId name : Option String) : Out :=
  let rooms0 := if mapHas st.activeRooms roomId then st.activeRooms
    else mapSet st.activeRooms roomId []
  let room := (mapGet rooms0 roomId).getD []
  let room1 := mapSet room sid
    { socketId := sid, userId := userId, name := name, isSpeaking := some false }
  let rooms1 := mapSet rooms0 roomId room1
  { state := { st with activeRooms := rooms1 },
    emits := [Emit.presenceUpdate (room1.map Prod.fst) roomId (room1.map Prod.snd)],
    logs := [] }

/-- `voice_activity` handler, variant 1 (`server.ts` lines 220-226). -/
def voiceActivity (st : ServerState) (sid : String) (roomId : Option String)
    (isSpeaking : Option Bool) : Out :=
  match mapGet st.activeRooms roomId with
  | none => { state := st, emits := [], logs := [] }
  | some room =>
    match mapGet room sid with
    | none => { state := st, emits := [], logs := [] }
    | some u =>
      let room1 := mapSet room sid { u with isSpeaking := isSpeaking }
      let rooms1 := mapSet st.activeRooms roomId room1
      { state := { st with activeRooms := rooms1 },
        emits := [Emit.userSpeaking (room1.map Prod.fst) roomId sid isSpeaking],
        logs := [] }

/-- `send_whisper` handler, variant 1 (`server.ts` lines 228-248).
`dbConnected` is the `isDbConnected` flag; `persistOk` is whether the
`insertOne` write succeeds (the `catch` turns a failure into a log line).
The emit targets every connected socket (`io.emit`), with an event name
built from the raw `msgData.receiverId`. -/
def sendWhisper (st : ServerState) (msgData : WhisperPayload) (now : Nat)
    (dbConnected persistOk : Bool) : Out :=
  let message : MessageW :=
    { senderId := jsOr msgData.senderId "",
      receiverId := jsOr msgData.receiverId "",
      cipherText := jsOr msgData.cipherText "",
      timestamp := now,
      type := jsOr msgData.type "text",
      sharedCircleId := msgData.sharedCircleId,
      isRead := false }
  { state := st,
    emits := [Emit.whisperInbox (st.connected.map Prod.fst)
      ("whisper_inbox_" ++ jsTemplate msgData.receiverId) message],
    logs := if dbConnected && !persistOk then ["Error saving message:"] else [] }

/-- The `activeRooms.forEach` body of the `disconnect` handler, variant 1
(`server.ts` lines 251-259): for each room holding the socket, delete it,
emit a `presence_update` with the remaining members, and drop the room when
it became empty. -/
def disconnectRooms (rooms : List (Option String × Room)) (sid : String) :
    List (Option String × Room) × List Emit :=
  match rooms with
  | [] => ([], [])
  | (rid, members) :: rest =>
    let tail := disconnectRooms rest sid
    if mapHas members sid then
      let members1 := mapDelete members sid
      let e := Emit.presenceUpdate (members1.map Prod.fst) rid (members1.map Prod.snd)
      if members1.length = 0 then (tail.1, e :: tail.2)
      else ((rid, members1) :: tail.1, e :: tail.2)
    else ((rid, members) :: tail.1, tail.2)

/-- `disconnect` handler, variant 1 (`server.ts` lines 250-261), together
with the transport-level removal of the connection from the registry. -/
def disconnect (st : ServerState) (sid : String) : Out :=
  let res := disconnectRooms st.activeRooms sid
  { state := { connected := st.connected.filter (fun c => ¬ c.1 = sid),
               activeRooms := res.1 },
    emits := res.2,
    logs := [] }

/-- Transport accept: registers the connection; `uid` is the identity whose
inbox event this client listens on (`App.tsx` line 47). -/
def connect (st : ServerState) (sid uid : String) : Out :=
  { state := { st with connected := st.connected ++ [(sid, uid)] },
    emits := [], logs := [] }

/-- One connection event, driving the variant-1 machine. -/
inductive Event where
  | connect (sid uid : String)
  | joinCircle (sid : String) (roomId userId name : Option String)
  | voiceActivity (sid : String) (roomId : Option String) (isSpeaking : Option Bool)
  | sendWhisper (msgData : WhisperPayload) (now : Nat) (dbConnected persistOk : Bool)
  | disconnect (sid : String)
deriving DecidableEq, Repr

/-- Dispatch of one event to the variant-1 handlers. -/
def step (st : ServerState) (e : Event) : Out :=
  match e with
  | .connect sid uid => connect st sid uid
  | .joinCircle sid r u n => joinCircle st sid r u n
  | .voiceActivity sid r f => voiceActivity st sid r f
  | .sendWhisper p now db ok => sendWhisper st p now db ok
  | .disconnect sid => disconnect st sid

/-- The empty initial state (`activeRooms = new Map()`, nobody connected). -/
def initState : ServerState := { connected := [], activeRooms := [] }

/-- Run the variant-1 machine from a given state. -/
def runFrom (st : ServerState) (es : List Event) : ServerState :=
  es.foldl (fun s e => (step s e).state) st

/-- Run the variant-1 machine from the initial state. -/
def run (es : List Event) : ServerState := runFrom initState es

/-- The member map a state records for a room. -/
def roomMembers (st : ServerState) (rid : Option String) : Room :=
  (mapGet st.activeRooms rid).getD []

/-- Whether a state records the connection as a member of the room. -/
def memberB (st : ServerState) (rid : Option String) (sid : String) : Bool :=
  mapHas (roomMembers st rid) sid

/-! ## Variant 2 (`server.ts` lines 466-520) -/

/-- The `RoomState` record of variant 2 (`server.ts` lines 474-477). -/
structure RoomState where
  members : Room
  activeAsset : Option String
deriving DecidableEq, Repr

/-- Variant-2 server state (`activeRooms : Map<string, RoomState>`). -/
structure ServerStateV2 where
  connected : List (String × String)
  activeRooms : List (Option String × RoomState)
deriving DecidableEq, Repr

/-- Result of one variant-2 handler dispatch. -/
structure OutV2 where
  state : ServerStateV2
  emits : List Emit
  logs : List String
deriving DecidableEq, Repr

/-- `join_circle` handler, variant 2 (`server.ts` lines 482-490).  The
member literal has no `isSpeaking` property, so the stored flag is `none`
(JS `undefined`), not `false`. -/
def joinCircleV2 (st : ServerStateV2) (sid : String) (roomId userId name : Option String) :
    OutV2 :=
  let rooms0 := if mapHas st.activeRooms roomId then st.activeRooms
    else mapSet st.activeRooms roomId { members := [], activeAsset := none }
  let room := (mapGet rooms0 roomId).getD { members := [], activeAsset := none }
  let members1 := mapSet room.members sid
    { socketId := sid, userId := userId, name := name, isSpeaking := none }
  let rooms1 := mapSet rooms0 roomId { room with members := members1 }
  { state := { st with activeRooms := rooms1 },
    emits := [Emit.presenceUpdate (members1.map Prod.fst) roomId (members1.map Prod.snd)],
    logs := [] }

/-- `voice_activity` handler, variant 2 (`server.ts` lines 502-509). -/
def voiceActivityV2 (st : ServerStateV2) (sid : String) (roomId : Option String)
    (isSpeaking : Option Bool) : OutV2 :=
  match mapGet st.activeRooms roomId with
  | none => { state := st, emits := [], logs := [] }
  | some room =>
    match mapGet room.members sid with
    | none => { state := st, emits := [], logs := [] }
    | some u =>
      let members1 := mapSet room.members sid { u with isSpeaking := isSpeaking }
      let rooms1 := mapSet st.activeRooms roomId { room with members := members1 }
      { state := { st with activeRooms := rooms1 },
        emits := [Emit.userSpeaking (members1.map Prod.fst) roomId sid isSpeaking],
        logs := [] }

/-- `send_whisper` handler, variant 2 (`server.ts` lines 492-500).  The
`io.emit` sits after the awaited `msg.save()` inside the same `try`, so a
rejected save jumps to the `catch` before the forward runs:
`persistOk = false` produces no emit, only the log line.  A successful send
re-broadcasts the raw `msgData` to every connected socket. -/
def sendWhisperV2 (st : ServerStateV2) (msgData : WhisperPayload) (persistOk : Bool) : OutV2 :=
  if persistOk then
    { state := st,
      emits := [Emit.whisperInboxRaw (st.connected.map Prod.fst)
        ("whisper_inbox_" ++ jsTemplate msgData.receiverId) msgData],
      logs := [] }
  else
    { state := st, emits := [], logs := ["[WHISPER] Broadcast failed"] }

/-- The `activeRooms.forEach` body of the `disconnect` handler, variant 2
(`server.ts` lines 512-518). -/
def disconnectRoomsV2 (rooms : List (Option String × RoomState)) (sid : String) :
    List (Option String × RoomState) × List Emit :=
  match rooms with
  | [] => ([], [])
  | (rid, room) :: rest =>
    let tail := disconnectRoomsV2 rest sid
    if mapHas room.members sid then
      let members1 := mapDelete room.members sid
      let e := Emit.presenceUpdate (members1.map Prod.fst) rid (members1.map Prod.snd)
      if members1.length = 0 then (tail.1, e :: tail.2)
      else ((rid, { room with members := members1 }) :: tail.1, e :: tail.2)
    else ((rid, room) :: tail.1, tail.2)

/-- `disconnect` handler, variant 2 (`server.ts` lines 511-519). -/
def disconnectV2 (st : ServerStateV2) (sid : String) : OutV2 :=
  let res := disconnectRoomsV2 st.activeRooms sid
  { state := { connected := st.connected.filter (fun c => ¬ c.1 = sid),
               activeRooms := res.1 },
    emits := res.2,
    logs := [] }

/-- Transport accept for the variant-2 machine. -/
def connectV2 (st : ServerStateV2) (sid uid : String) : OutV2 :=
  { state := { st with connected := st.connected ++ [(sid, uid)] },
    emits := [], logs := [] }

/-- Dispatch of one event to the variant-2 handlers.  Variant 2 has no
`isDbConnected` gate and lets Mongoose assign the timestamp, so those event
fields are unused there. -/
def stepV2 (st : ServerStateV2) (e : Event) : OutV2 :=
  match e with
  | .connect sid uid => connectV2 st sid uid
  | .joinCircle sid r u n => joinCircleV2 st sid r u n
  | .voiceActivity sid r f => voiceActivityV2 st sid r f
  | .sendWhisper p _ _ ok => sendWhisperV2 st p ok
  | .disconnect sid => disconnectV2 st sid

/-- The empty initial state of the variant-2 machine. -/
def initStateV2 : ServerStateV2 := { connected := [], activeRooms := [] }

/-- Run the variant-2 machine from a given state. -/
def runFromV2 (st : ServerStateV2) (es : List Event) : ServerStateV2 :=
  es.foldl (fun s e => (stepV2 s e).state) st

/-- Run the variant-2 machine from the initial state. -/
def runV2 (es : List Event) : ServerStateV2 := runFromV2 initStateV2 es

/-- The member map a variant-2 state records for a room. -/
def roomMembersV2 (st : ServerStateV2) (rid : Option String) : Room :=
  ((mapGet st.activeRooms rid).getD { members := [], activeAsset := none }).members

/-- Whether a variant-2 state records the connection as a member of the room. -/
def memberBV2 (st : ServerStateV2) (rid : Option String) (sid : String) : Bool :=
  mapHas (roomMembersV2 st rid) sid

/-! ## Client-side whisper subscription (`App.tsx` line 47) -/

/-- Whether the client behind a connection handles a published event: it
registered exactly one whisper listener, on its own identity's inbox name. -/
def listensTo (c : String × String) (ev : String) : Bool :=
  ("whisper_inbox_" ++ c.2) == ev

/-- The connections whose client handles a packet published under the given
event name. -/
def handlerSet (st : ServerState) (ev : String) : List String :=
  (st.connected.filter (fun c => listensTo c ev)).map Prod.fst

/-- The connections registered under a user identity. -/
def registeredUnder (st : ServerState) (uid : String) : List String :=
  (st.connected.filter (fun c => c.2 == uid)).map Prod.fst

/-! ## Spec-side characterizations and invariants -/

/-- Modelled from the spec: one step of the spec's presence
characterization ("the connections that have joined and not yet
left/disconnected from R").  A join of `s` to `r` makes it present, a
disconnect of `s` removes it, every other event leaves it untouched.  The
source has no standalone leave event: the spec's `leave` is invoked only
from the disconnect cascade. -/
def memUpd (r : Option String) (s : String) (b : Bool) (e : Event) : Bool :=
  match e with
  | .joinCircle c rid _ _ => if rid = r ∧ c = s then true else b
  | .disconnect c => if s = c then false else b
  | _ => b

/-- Modelled from the spec: whether, after the event sequence, connection
`s` has joined room `r` and not disconnected since. -/
def joinedNotDeparted (es : List Event) (r : Option String) (s : String) : Bool :=
  es.foldl (memUpd r s) false

/-- Whether a packet, if it is a presence update, mentions the given socket
neither among its targets nor in its member payload. -/
def presenceExcludes (sid : String) : Emit → Bool
  | .presenceUpdate tgts _ ms =>
      tgts.all (fun t => ¬ t = sid) && ms.all (fun m => ¬ m.socketId = sid)
  | _ => true

/-- Whether a packet is a presence update. -/
def isPresenceUpdate : Emit → Bool
  | .presenceUpdate _ _ _ => true
  | _ => false

/-- Well-formedness of a variant-1 state: room keys are distinct, no room
is empty, and every member record's `socketId` equals its map key. -/
def StateWF (st : ServerState) : Prop :=
  (st.activeRooms.map Prod.fst).Nodup ∧
  (∀ p ∈ st.activeRooms, p.2 ≠ []) ∧
  (∀ p ∈ st.activeRooms, ∀ q ∈ p.2, q.2.socketId = q.1)

/-- Well-formedness of a variant-2 state. -/
def StateWFV2 (st : ServerStateV2) : Prop :=
  (st.activeRooms.map Prod.fst).Nodup ∧
  (∀ p ∈ st.activeRooms, p.2.members ≠ []) ∧
  (∀ p ∈ st.activeRooms, ∀ q ∈ p.2.members, q.2.socketId = q.1)

/-! ## Lemmas about the JS `Map` embedding -/

theorem mapHas_iff_mem_keys {m : List (κ × β)} {k : κ} :
    mapHas m k = true ↔ k ∈ m.map Prod.fst := by
  induction m with
  | nil => simp [mapHas]
  | cons p m ih =>
    rw [mapHas]
    by_cases hp : p.1 = k
    · simp [hp]
    · have hkp : ¬ k = p.1 := fun hc => hp hc.symm
      simp [hp, hkp, ih]

theorem key_ne_of_not_has {m : List (κ × β)} {k : κ} (h : mapHas m k = false) :
    ∀ q ∈ m, ¬ q.1 = k := by
  intro q hq hk
  have : mapHas m k = true := mapHas_iff_mem_keys.2 (hk ▸ List.mem_map_of_mem Prod.fst hq)
  simp [this] at h

theorem mapHas_mapReplace (m : List (κ × β)) (k : κ) (v : β) (s : κ) :
    mapHas (mapReplace m k v) s = mapHas m s := by
  induction m with
  | nil => rfl
  | cons p m ih =>
    by_cases hp : p.1 = k <;> simp [mapReplace, mapHas, hp, ih]

theorem map_fst_mapReplace (m : List (κ × β)) (k : κ) (v : β) :
    (mapReplace m k v).map Prod.fst = m.map Prod.fst := by
  induction m with
  | nil => rfl
  | cons p m ih =>
    by_cases hp : p.1 = k <;> simp [mapReplace, hp, ih]

theorem mapHas_append (m m' : List (κ × β)) (s : κ) :
    mapHas (m ++ m') s = (mapHas m s || mapHas m' s) := by
  induction m with
  | nil => simp [mapHas]
  | cons p m ih =>
    by_cases hp : p.1 = s <;> simp [mapHas, hp, ih]

theorem mapHas_mapSet (m : List (κ × β)) (k : κ) (v : β) (s : κ) :
    mapHas (mapSet m k v) s = if s = k then true else mapHas m s := by
  unfold mapSet
  by_cases hh : mapHas m k
  · rw [if_pos hh, mapHas_mapReplace]
    by_cases hs : s = k
    · subst hs; simp [hh]
    · simp [hs]
  · rw [if_neg hh, mapHas_append]
    by_cases hs : s = k
    · subst hs; simp [mapHas]
    · have hks : ¬ k = s := fun hc => hs hc.symm
      simp [mapHas, hs, hks]

theorem mapGet_mapReplace_self (m : List (κ × β)) (k : κ) (v : β) (h : mapHas m k = true) :
    mapGet (mapReplace m k v) k = some v := by
  induction m with
  | nil => simp [mapHas] at h
  | cons p m ih =>
    by_cases hp : p.1 = k
    · simp [mapReplace, hp, mapGet]
    · simp only [mapReplace, if_neg hp]
      rw [mapGet, if_neg hp]
      exact ih (by simpa [mapHas, hp] using h)

theorem mapGet_append_not_has (m : List (κ × β)) (k : κ) (v : β) (h : mapHas m k = false) :
    mapGet (m ++ [(k, v)]) k = some v := by
  induction m with
  | nil => simp [mapGet]
  | cons p m ih =>
    by_cases hp : p.1 = k
    · simp [mapHas, hp] at h
    · rw [List.cons_append, mapGet, if_neg hp]
      exact ih (by simpa [mapHas, hp] using h)

theorem mapGet_mapSet_self (m : List (κ × β)) (k : κ) (v : β) :
    mapGet (mapSet m k v) k = some v := by
  unfold mapSet
  by_cases hh : mapHas m k
  · rw [if_pos hh]; exact mapGet_mapReplace_self m k v hh
  · rw [if_neg hh]; exact mapGet_append_not_has m k v (by simpa using hh)

theorem mapGet_mapReplace_ne (m : List (κ × β)) (k : κ) (v : β) (s : κ) (h : ¬ s = k) :
    mapGet (mapReplace m k v) s = mapGet m s := by
  induction m with
  | nil => rfl
  | cons p m ih =>
    rw [mapReplace]
    by_cases hp : p.1 = k
    · have h1 : ¬ (k, v).1 = s := fun hc => h hc.symm
      have h2 : ¬ p.1 = s := fun hc => h (hc.symm.trans hp)
      rw [if_pos hp, mapGet, mapGet, if_neg h1, if_neg h2]
      exact ih
    · rw [if_neg hp, mapGet, mapGet]
      by_cases hps : p.1 = s
      · rw [if_pos hps, if_pos hps]
      · rw [if_neg hps, if_neg hps]
        exact ih

theorem mapGet_append_singleton_ne (m : List (κ × β)) (k : κ) (v : β) (s : κ) (h : ¬ s = k) :
    mapGet (m ++ [(k, v)]) s = mapGet m s := by
  induction m with
  | nil =>
    have h1 : ¬ (k, v).1 = s := fun hc => h hc.symm
    simp [mapGet, h1]
  | cons p m ih =>
    rw [List.cons_append, mapGet, mapGet]
    by_cases hp : p.1 = s
    · rw [if_pos hp, if_pos hp]
    · rw [if_neg hp, if_neg hp]
      exact ih

theorem mapGet_mapSet_ne (m : List (κ × β)) (k : κ) (v : β) (s : κ) (h : ¬ s = k) :
    mapGet (mapSet m k v) s = mapGet m s := by
  unfold mapSet
  by_cases hh : mapHas m k
  · rw [if_pos hh]; exact mapGet_mapReplace_ne m k v s h
  · rw [if_neg hh]; exact mapGet_append_singleton_ne m k v s h

theorem map_fst_mapSet_of_has (m : List (κ × β)) (k : κ) (v : β) (h : mapHas m k = true) :
    (mapSet m k v).map Prod.fst = m.map Prod.fst := by
  simp [mapSet, h, map_fst_mapReplace]

theorem mapSet_ne_nil (m : List (κ × β)) (k : κ) (v : β) : mapSet m k v ≠ [] := by
  unfold mapSet
  by_cases hh : mapHas m k
  · rw [if_pos hh]
    cases m with
    | nil => simp [mapHas] at hh
    | cons p m => simp [mapReplace]
  · rw [if_neg hh]; simp

theorem mem_mapReplace {m : List (κ × β)} {k : κ} {v : β} {q : κ × β}
    (hq : q ∈ mapReplace m k v) : q = (k, v) ∨ (q ∈ m ∧ ¬ q.1 = k) := by
  induction m with
  | nil => simp [mapReplace] at hq
  | cons p m ih =>
    rw [mapReplace] at hq
    rcases List.mem_cons.1 hq with hq | hq
    · by_cases hp : p.1 = k
      · left; simpa [hp] using hq
      · right
        rw [if_neg hp] at hq
        exact ⟨hq ▸ List.mem_cons_self p m, hq ▸ hp⟩
    · rcases ih hq with h | ⟨h1, h2⟩
      · exact Or.inl h
      · exact Or.inr ⟨List.mem_cons_of_mem p h1, h2⟩

theorem mem_mapSet {m : List (κ × β)} {k : κ} {v : β} {q : κ × β}
    (hq : q ∈ mapSet m k v) : q = (k, v) ∨ (q ∈ m ∧ ¬ q.1 = k) := by
  unfold mapSet at hq
  by_cases hh : mapHas m k
  · rw [if_pos hh] at hq
    exact mem_mapReplace hq
  · rw [if_neg hh] at hq
    rcases List.mem_append.1 hq with hq | hq
    · exact Or.inr ⟨hq, key_ne_of_not_has (by simpa using hh) q hq⟩
    · exact Or.inl (List.mem_singleton.1 hq)

theorem nodup_map_fst_mapSet {m : List (κ × β)} {k : κ} {v : β}
    (h : (m.map Prod.fst).Nodup) : ((mapSet m k v).map Prod.fst).Nodup := by
  unfold mapSet
  by_cases hh : mapHas m k
  · rw [if_pos hh, map_fst_mapReplace]; exact h
  · rw [if_neg hh]
    have hk : ¬ k ∈ m.map Prod.fst := fun hc => by
      simp [mapHas_iff_mem_keys.2 hc] at hh
    simp [List.nodup_append, h, hk]

theorem mapHas_mapDelete (m : List (κ × β)) (k s : κ) :
    mapHas (mapDelete m k) s = if s = k then false else mapHas m s := by
  induction m with
  | nil =>
    rw [mapDelete]
    by_cases hs : s = k <;> simp [mapHas, hs]
  | cons p m ih =>
    rw [mapDelete]
    by_cases hp : p.1 = k
    · rw [if_pos hp, ih]
      by_cases hs : s = k
      · simp [hs]
      · have hps : ¬ p.1 = s := fun hc => hs (hc.symm.trans hp)
        simp [hs, mapHas, hps]
    · rw [if_neg hp, mapHas]
      by_cases hps : p.1 = s
      · have hs : ¬ s = k := fun hc => hp (hps.trans hc)
        rw [if_pos hps, if_neg hs, mapHas, if_pos hps]
      · rw [if_neg hps, ih, mapHas, if_neg hps]

theorem mem_mapDelete {m : List (κ × β)} {k : κ} {q : κ × β}
    (hq : q ∈ mapDelete m k) : q ∈ m ∧ ¬ q.1 = k := by
  induction m with
  | nil => simp [mapDelete] at hq
  | cons p m ih =>
    rw [mapDelete] at hq
    by_cases hp : p.1 = k
    · rw [if_pos hp] at hq
      rcases ih hq with ⟨h1, h2⟩
      exact ⟨List.mem_cons_of_mem p h1, h2⟩
    · rw [if_neg hp] at hq
      rcases List.mem_cons.1 hq with hq | hq
      · exact ⟨hq ▸ List.mem_cons_self p m, hq ▸ hp⟩
      · rcases ih hq with ⟨h1, h2⟩
        exact ⟨List.mem_cons_of_mem p h1, h2⟩

theorem eq_key_of_mapDelete_nil {m : List (κ × β)} {k : κ} (h : mapDelete m k = []) :
    ∀ q ∈ m, q.1 = k := by
  induction m with
  | nil => simp
  | cons p m ih =>
    rw [mapDelete] at h
    by_cases hp : p.1 = k
    · rw [if_pos hp] at h
      intro q hq
      rcases List.mem_cons.1 hq with hq | hq
      · exact hq ▸ hp
      · exact ih h q hq
    · rw [if_neg hp] at h
      exact absurd h (List.cons_ne_nil _ _)

theorem mapGet_eq_none_of_not_mem_keys {m : List (κ × β)} {k : κ}
    (h : ¬ k ∈ m.map Prod.fst) : mapGet m k = none := by
  induction m with
  | nil => rfl
  | cons p m ih =>
    rw [mapGet]
    by_cases hp : p.1 = k
    · exact absurd (by simp [hp]) h
    · rw [if_neg hp]
      exact ih (fun hc => h (by simp [hc]))

theorem mapGet_mem {m : List (κ × β)} {k : κ} {v : β} (h : mapGet m k = some v) :
    (k, v) ∈ m := by
  induction m with
  | nil => simp [mapGet] at h
  | cons p m ih =>
    obtain ⟨a, b⟩ := p
    rw [mapGet] at h
    by_cases hp : (a, b).1 = k
    · rw [if_pos hp] at h
      have hv : b = v := Option.some.inj h
      have ha : a = k := hp
      subst hv
      subst ha
      exact List.mem_cons_self _ _
    · rw [if_neg hp] at h
      exact List.mem_cons_of_mem _ (ih h)

theorem mapHas_of_mapGet_some {m : List (κ × β)} {k : κ} {v : β}
    (h : mapGet m k = some v) : mapHas m k = true :=
  mapHas_iff_mem_keys.2 (List.mem_map_of_mem Prod.fst (mapGet_mem h))

theorem mapGet_eq_none_of_not_has {m : List (κ × β)} {k : κ} (h : mapHas m k = false) :
    mapGet m k = none :=
  mapGet_eq_none_of_not_mem_keys (fun hc => by simp [mapHas_iff_mem_keys.2 hc] at h)

theorem mapHas_of_mapDelete_nil {m : List (κ × β)} {k s : κ} (h : mapDelete m k = [])
    (hs : ¬ s = k) : mapHas m s = false := by
  by_cases hh : mapHas m s
  · exfalso
    obtain ⟨q, hq, hq1⟩ := List.mem_map.1 (mapHas_iff_mem_keys.1 hh)
    apply hs
    rw [← hq1]
    exact eq_key_of_mapDelete_nil h q hq
  · simpa using hh

/-! ## Lemmas about the variant-1 disconnect cascade -/

theorem disconnectRooms_emits (rooms : List (Option String × Room)) (sid : String) :
    (disconnectRooms rooms sid).2 = rooms.filterMap (fun p =>
      if mapHas p.2 sid then
        some (Emit.presenceUpdate ((mapDelete p.2 sid).map Prod.fst) p.1
          ((mapDelete p.2 sid).map Prod.snd))
      else none) := by
  induction rooms with
  | nil => rfl
  | cons p rest ih =>
    obtain ⟨rid, mem⟩ := p
    by_cases hm : mapHas mem sid
    · by_cases hl : (mapDelete mem sid).length = 0 <;>
        simp [disconnectRooms, hm, hl, ih, List.filterMap_cons]
    · simp [disconnectRooms, hm, ih, List.filterMap_cons]

theorem disconnectRooms_cons_del_drop {rid : Option String} {mem : Room}
    {rest : List (Option String × Room)} {sid : String} (hm : mapHas mem sid = true)
    (hl : (mapDelete mem sid).length = 0) :
    (disconnectRooms ((rid, mem) :: rest) sid).1 = (disconnectRooms rest sid).1 := by
  simp [disconnectRooms, hm, hl]

theorem disconnectRooms_cons_del_keep {rid : Option String} {mem : Room}
    {rest : List (Option String × Room)} {sid : String} (hm : mapHas mem sid = true)
    (hl : ¬ (mapDelete mem sid).length = 0) :
    (disconnectRooms ((rid, mem) :: rest) sid).1 =
      (rid, mapDelete mem sid) :: (disconnectRooms rest sid).1 := by
  simp [disconnectRooms, hm, hl]

theorem disconnectRooms_cons_skip {rid : Option String} {mem : Room}
    {rest : List (Option String × Room)} {sid : String} (hm : mapHas mem sid = false) :
    (disconnectRooms ((rid, mem) :: rest) sid).1 =
      (rid, mem) :: (disconnectRooms rest sid).1 := by
  simp [disconnectRooms, hm]

theorem disconnectRooms_keys_sublist (rooms : List (Option String × Room)) (sid : String) :
    ((disconnectRooms rooms sid).1.map Prod.fst).Sublist (rooms.map Prod.fst) := by
  induction rooms with
  | nil => simp [disconnectRooms]
  | cons p rest ih =>
    obtain ⟨rid, mem⟩ := p
    by_cases hm : mapHas mem sid
    · by_cases hl : (mapDelete mem sid).length = 0
      · rw [disconnectRooms_cons_del_drop hm hl, List.map_cons]
        exact ih.cons rid
      · rw [disconnectRooms_cons_del_keep hm hl, List.map_cons, List.map_cons]
        exact ih.cons₂ rid
    · have hm' : mapHas mem sid = false := by simpa using hm
      rw [disconnectRooms_cons_skip hm', List.map_cons, List.map_cons]
      exact ih.cons₂ rid

theorem mem_disconnectRooms {rooms : List (Option String × Room)} {sid : String}
    {q : Option String × Room} (hq : q ∈ (disconnectRooms rooms sid).1) :
    ∃ p ∈ rooms, q.1 = p.1 ∧
      (q.2 = p.2 ∨ (q.2 = mapDelete p.2 sid ∧ ¬ q.2.length = 0)) := by
  induction rooms with
  | nil => simp [disconnectRooms] at hq
  | cons p rest ih =>
    obtain ⟨rid, mem⟩ := p
    by_cases hm : mapHas mem sid
    · by_cases hl : (mapDelete mem sid).length = 0
      · simp only [disconnectRooms, hm, hl, if_true] at hq
        obtain ⟨p, hp, h1, h2⟩ := ih hq
        exact ⟨p, List.mem_cons_of_mem _ hp, h1, h2⟩
      · simp only [disconnectRooms, hm, hl, if_true, if_false] at hq
        rcases List.mem_cons.1 hq with hq | hq
        · exact ⟨(rid, mem), List.mem_cons_self _ _, by simp [hq],
            Or.inr (by simp [hq, hl])⟩
        · obtain ⟨p, hp, h1, h2⟩ := ih hq
          exact ⟨p, List.mem_cons_of_mem _ hp, h1, h2⟩
    · simp only [disconnectRooms, hm, if_false] at hq
      rcases List.mem_cons.1 hq with hq | hq
      · exact ⟨(rid, mem), List.mem_cons_self _ _, by simp [hq], Or.inl (by simp [hq])⟩
      · obtain ⟨p, hp, h1, h2⟩ := ih hq
        exact ⟨p, List.mem_cons_of_mem _ hp, h1, h2⟩

theorem memberHas_disconnectRooms (rooms : List (Option String × Room)) (sid : String)
    (r : Option String) (s : String) (hnd : (rooms.map Prod.fst).Nodup) :
    mapHas ((mapGet (disconnectRooms rooms sid).1 r).getD []) s =
      if s = sid then false
      else mapHas ((mapGet rooms r).getD []) s := by
  induction rooms with
  | nil =>
    by_cases hs : s = sid <;> simp [disconnectRooms, mapGet, mapHas, hs]
  | cons p rest ih =>
    obtain ⟨rid, mem⟩ := p
    have hnd1 : (rest.map Prod.fst).Nodup := (List.nodup_cons.1 (by simpa using hnd)).2
    have hrid : ¬ rid ∈ rest.map Prod.fst := (List.nodup_cons.1 (by simpa using hnd)).1
    by_cases hr : rid = r
    · subst hr
      by_cases hm : mapHas mem sid
      · by_cases hl : (mapDelete mem sid).length = 0
        · rw [disconnectRooms_cons_del_drop hm hl]
          have hnone : mapGet (disconnectRooms rest sid).1 rid = none :=
            mapGet_eq_none_of_not_mem_keys
              (fun hc => hrid ((disconnectRooms_keys_sublist rest sid).subset hc))
          rw [hnone, Option.getD_none]
          have hdel : mapDelete mem sid = [] := List.length_eq_zero.1 hl
          by_cases hs : s = sid
          · simp [mapGet, mapHas, hs]
          · simp [mapGet, mapHas, hs, mapHas_of_mapDelete_nil hdel hs]
        · rw [disconnectRooms_cons_del_keep hm hl]
          simp [mapGet, mapHas_mapDelete]
      · have hm' : mapHas mem sid = false := by simpa using hm
        rw [disconnectRooms_cons_skip hm']
        by_cases hs : s = sid
        · subst hs; simp [mapGet, hm']
        · simp [mapGet, hs]
    · by_cases hm : mapHas mem sid
      · by_cases hl : (mapDelete mem sid).length = 0
        · rw [disconnectRooms_cons_del_drop hm hl]
          conv_rhs => rw [mapGet, if_neg hr]
          exact ih hnd1
        · rw [disconnectRooms_cons_del_keep hm hl]
          conv_lhs => rw [mapGet, if_neg hr]
          conv_rhs => rw [mapGet, if_neg hr]
          exact ih hnd1
      · have hm' : mapHas mem sid = false := by simpa using hm
        rw [disconnectRooms_cons_skip hm']
        conv_lhs => rw [mapGet, if_neg hr]
        conv_rhs => rw [mapGet, if_neg hr]
        exact ih hnd1

/-! ## Handler equations (variant 1) -/

theorem joinCircle_state_rooms (st : ServerState) (sid : String) (rid u n : Option String) :
    (joinCircle st sid rid u n).state.activeRooms =
      mapSet (if mapHas st.activeRooms rid then st.activeRooms else mapSet st.activeRooms rid [])
        rid
        (mapSet ((mapGet (if mapHas st.activeRooms rid then st.activeRooms
            else mapSet st.activeRooms rid []) rid).getD [])
          sid { socketId := sid, userId := u, name := n, isSpeaking := some false }) := rfl

theorem joinCircle_state_connected (st : ServerState) (sid : String) (rid u n : Option String) :
    (joinCircle st sid rid u n).state.connected = st.connected := rfl

theorem voiceActivity_eq_noroom {st : ServerState} {sid : String} {rid : Option String}
    {f : Option Bool} (hg : mapGet st.activeRooms rid = none) :
    voiceActivity st sid rid f = { state := st, emits := [], logs := [] } := by
  simp [voiceActivity, hg]

theorem voiceActivity_eq_nomem {st : ServerState} {sid : String} {rid : Option String}
    {f : Option Bool} {room : Room} (hg : mapGet st.activeRooms rid = some room)
    (hgu : mapGet room sid = none) :
    voiceActivity st sid rid f = { state := st, emits := [], logs := [] } := by
  simp [voiceActivity, hg, hgu]

theorem voiceActivity_eq_mem {st : ServerState} {sid : String} {rid : Option String}
    {f : Option Bool} {room : Room} {u : User} (hg : mapGet st.activeRooms rid = some room)
    (hgu : mapGet room sid = some u) :
    voiceActivity st sid rid f =
      { state := { connected := st.connected, activeRooms := mapSet st.activeRooms rid (mapSet room sid { u with isSpeaking := f }) },
        emits := [Emit.userSpeaking ((mapSet room sid { u with isSpeaking := f }).map Prod.fst) rid sid f],
        logs := [] } := by
  simp [voiceActivity, hg, hgu]

theorem disconnect_state_rooms (st : ServerState) (sid : String) :
    (disconnect st sid).state.activeRooms = (disconnectRooms st.activeRooms sid).1 := rfl

theorem disconnect_emits (st : ServerState) (sid : String) :
    (disconnect st sid).emits = (disconnectRooms st.activeRooms sid).2 := rfl

/-! ## Preservation of well-formedness (variant 1) -/

theorem stateWF_init : StateWF initState := by
  refine ⟨?_, ?_, ?_⟩ <;> simp [initState]

theorem stateWF_joinCircle {st : ServerState} (h : StateWF st) (sid : String)
    (rid u n : Option String) : StateWF (joinCircle st sid rid u n).state := by
  obtain ⟨hnd, hne, hkey⟩ := h
  refine ⟨?_, ?_, ?_⟩ <;> rw [joinCircle_state_rooms]
  · by_cases hh : mapHas st.activeRooms rid
    · rw [if_pos hh]
      exact nodup_map_fst_mapSet hnd
    · rw [if_neg hh]
      exact nodup_map_fst_mapSet (nodup_map_fst_mapSet hnd)
  · intro p hp
    by_cases hh : mapHas st.activeRooms rid
    · rw [if_pos hh] at hp
      rcases mem_mapSet hp with rfl | ⟨hp, hpk⟩
      · exact mapSet_ne_nil _ _ _
      · exact hne p hp
    · rw [if_neg hh] at hp
      rcases mem_mapSet hp with rfl | ⟨hp, hpk⟩
      · exact mapSet_ne_nil _ _ _
      · rcases mem_mapSet hp with rfl | ⟨hp2, hpk2⟩
        · exact absurd rfl hpk
        · exact hne p hp2
  · intro p hp q hq
    by_cases hh : mapHas st.activeRooms rid
    · rw [if_pos hh] at hp
      rcases mem_mapSet hp with rfl | ⟨hp, hpk⟩
      · rcases mem_mapSet hq with rfl | ⟨hq, hqk⟩
        · rfl
        · cases hg : mapGet st.activeRooms rid with
          | none => rw [hg] at hq; simp at hq
          | some room1 =>
            rw [hg] at hq
            exact hkey (rid, room1) (mapGet_mem hg) q hq
      · exact hkey p hp q hq
    · rw [if_neg hh] at hp
      rcases mem_mapSet hp with rfl | ⟨hp, hpk⟩
      · rcases mem_mapSet hq with rfl | ⟨hq, hqk⟩
        · rfl
        · rw [mapGet_mapSet_self] at hq
          simp at hq
      · rcases mem_mapSet hp with rfl | ⟨hp2, hpk2⟩
        · exact absurd rfl hpk
        · exact hkey p hp2 q hq

theorem stateWF_voiceActivity {st : ServerState} (h : StateWF st) (sid : String)
    (rid : Option String) (f : Option Bool) : StateWF (voiceActivity st sid rid f).state := by
  obtain ⟨hnd, hne, hkey⟩ := h
  cases hg : mapGet st.activeRooms rid with
  | none => rw [voiceActivity_eq_noroom hg]; exact ⟨hnd, hne, hkey⟩
  | some room =>
    cases hgu : mapGet room sid with
    | none => rw [voiceActivity_eq_nomem hg hgu]; exact ⟨hnd, hne, hkey⟩
    | some u =>
      rw [voiceActivity_eq_mem hg hgu]
      refine ⟨nodup_map_fst_mapSet hnd, ?_, ?_⟩
      · intro p hp
        rcases mem_mapSet hp with rfl | ⟨hp, hpk⟩
        · exact mapSet_ne_nil _ _ _
        · exact hne p hp
      · intro p hp q hq
        rcases mem_mapSet hp with rfl | ⟨hp, hpk⟩
        · rcases mem_mapSet hq with rfl | ⟨hq, hqk⟩
          · exact hkey (rid, room) (mapGet_mem hg) (sid, u) (mapGet_mem hgu)
          · exact hkey (rid, room) (mapGet_mem hg) q hq
        · exact hkey p hp q hq

theorem stateWF_disconnect {st : ServerState} (h : StateWF st) (sid : String) :
    StateWF (disconnect st sid).state := by
  obtain ⟨hnd, hne, hkey⟩ := h
  refine ⟨?_, ?_, ?_⟩ <;> rw [disconnect_state_rooms]
  · exact ((disconnectRooms_keys_sublist st.activeRooms sid).nodup hnd)
  · intro p hp
    obtain ⟨p0, hp0, hk, hv⟩ := mem_disconnectRooms hp
    rcases hv with hv | ⟨hv, hlen⟩
    · rw [hv]; exact hne p0 hp0
    · intro hnil
      apply hlen
      rw [hnil]
      rfl
  · intro p hp q hq
    obtain ⟨p0, hp0, hk, hv⟩ := mem_disconnectRooms hp
    rcases hv with hv | ⟨hv, _⟩
    · exact hkey p0 hp0 q (hv ▸ hq)
    · have hq2 : q ∈ mapDelete p0.2 sid := hv ▸ hq
      exact hkey p0 hp0 q (mem_mapDelete hq2).1

theorem stateWF_step {st : ServerState} (h : StateWF st) (e : Event) :
    StateWF (step st e).state := by
  cases e with
  | connect sid uid => exact h
  | joinCircle sid r u n => exact stateWF_joinCircle h sid r u n
  | voiceActivity sid r f => exact stateWF_voiceActivity h sid r f
  | sendWhisper p now db ok => exact h
  | disconnect sid => exact stateWF_disconnect h sid

theorem stateWF_runFrom {st : ServerState} (h : StateWF st) (es : List Event) :
    StateWF (runFrom st es) := by
  induction es generalizing st with
  | nil => exact h
  | cons e es ih => exact ih (stateWF_step h e)

theorem stateWF_run (es : List Event) : StateWF (run es) :=
  stateWF_runFrom stateWF_init es

/-! ## Variant-2 analogues -/

theorem disconnectRoomsV2_cons_del_drop {rid : Option String} {room : RoomState}
    {rest : List (Option String × RoomState)} {sid : String}
    (hm : mapHas room.members sid = true) (hl : (mapDelete room.members sid).length = 0) :
    (disconnectRoomsV2 ((rid, room) :: rest) sid).1 = (disconnectRoomsV2 rest sid).1 := by
  simp [disconnectRoomsV2, hm, hl]

theorem disconnectRoomsV2_cons_del_keep {rid : Option String} {room : RoomState}
    {rest : List (Option String × RoomState)} {sid : String}
    (hm : mapHas room.members sid = true) (hl : ¬ (mapDelete room.members sid).length = 0) :
    (disconnectRoomsV2 ((rid, room) :: rest) sid).1 =
      (rid, { room with members := mapDelete room.members sid }) ::
        (disconnectRoomsV2 rest sid).1 := by
  simp [disconnectRoomsV2, hm, hl]

theorem disconnectRoomsV2_cons_skip {rid : Option String} {room : RoomState}
    {rest : List (Option String × RoomState)} {sid : String}
    (hm : mapHas room.members sid = false) :
    (disconnectRoomsV2 ((rid, room) :: rest) sid).1 =
      (rid, room) :: (disconnectRoomsV2 rest sid).1 := by
  simp [disconnectRoomsV2, hm]

theorem disconnectRoomsV2_keys_sublist (rooms : List (Option String × RoomState))
    (sid : String) :
    ((disconnectRoomsV2 rooms sid).1.map Prod.fst).Sublist (rooms.map Prod.fst) := by
  induction rooms with
  | nil => simp [disconnectRoomsV2]
  | cons p rest ih =>
    obtain ⟨rid, room⟩ := p
    by_cases hm : mapHas room.members sid
    · by_cases hl : (mapDelete room.members sid).length = 0
      · rw [disconnectRoomsV2_cons_del_drop hm hl, List.map_cons]
        exact ih.cons rid
      · rw [disconnectRoomsV2_cons_del_keep hm hl, List.map_cons, List.map_cons]
        exact ih.cons₂ rid
    · have hm' : mapHas room.members sid = false := by simpa using hm
      rw [disconnectRoomsV2_cons_skip hm', List.map_cons, List.map_cons]
      exact ih.cons₂ rid

theorem mem_disconnectRoomsV2 {rooms : List (Option String × RoomState)} {sid : String}
    {q : Option String × RoomState} (hq : q ∈ (disconnectRoomsV2 rooms sid).1) :
    ∃ p ∈ rooms, q.1 = p.1 ∧
      (q.2 = p.2 ∨ (q.2 = { p.2 with members := mapDelete p.2.members sid } ∧
        ¬ (mapDelete p.2.members sid).length = 0)) := by
  induction rooms with
  | nil => simp [disconnectRoomsV2] at hq
  | cons p rest ih =>
    obtain ⟨rid, room⟩ := p
    by_cases hm : mapHas room.members sid
    · by_cases hl : (mapDelete room.members sid).length = 0
      · rw [disconnectRoomsV2_cons_del_drop hm hl] at hq
        obtain ⟨p, hp, h1, h2⟩ := ih hq
        exact ⟨p, List.mem_cons_of_mem _ hp, h1, h2⟩
      · rw [disconnectRoomsV2_cons_del_keep hm hl] at hq
        rcases List.mem_cons.1 hq with hq | hq
        · exact ⟨(rid, room), List.mem_cons_self _ _, by simp [hq],
            Or.inr ⟨by simp [hq], hl⟩⟩
        · obtain ⟨p, hp, h1, h2⟩ := ih hq
          exact ⟨p, List.mem_cons_of_mem _ hp, h1, h2⟩
    · have hm' : mapHas room.members sid = false := by simpa using hm
      rw [disconnectRoomsV2_cons_skip hm'] at hq
      rcases List.mem_cons.1 hq with hq | hq
      · exact ⟨(rid, room), List.mem_cons_self _ _, by simp [hq], Or.inl (by simp [hq])⟩
      · obtain ⟨p, hp, h1, h2⟩ := ih hq
        exact ⟨p, List.mem_cons_of_mem _ hp, h1, h2⟩

theorem joinCircleV2_state_rooms (st : ServerStateV2) (sid : String)
    (rid u n : Option String) :
    (joinCircleV2 st sid rid u n).state.activeRooms =
      mapSet (if mapHas st.activeRooms rid then st.activeRooms
          else mapSet st.activeRooms rid { members := [], activeAsset := none })
        rid
        { (mapGet (if mapHas st.activeRooms rid then st.activeRooms
              else mapSet st.activeRooms rid { members := [], activeAsset := none })
            rid).getD { members := [], activeAsset := none } with
          members := mapSet ((mapGet (if mapHas st.activeRooms rid then st.activeRooms
              else mapSet st.activeRooms rid { members := [], activeAsset := none })
            rid).getD { members := [], activeAsset := none }).members sid
            { socketId := sid, userId := u, name := n, isSpeaking := none } } := rfl

theorem voiceActivityV2_eq_noroom {st : ServerStateV2} {sid : String} {rid : Option String}
    {f : Option Bool} (hg : mapGet st.activeRooms rid = none) :
    voiceActivityV2 st sid rid f = { state := st, emits := [], logs := [] } := by
  simp [voiceActivityV2, hg]

theorem voiceActivityV2_eq_nomem {st : ServerStateV2} {sid : String} {rid : Option String}
    {f : Option Bool} {room : RoomState} (hg : mapGet st.activeRooms rid = some room)
    (hgu : mapGet room.members sid = none) :
    voiceActivityV2 st sid rid f = { state := st, emits := [], logs := [] } := by
  simp [voiceActivityV2, hg, hgu]

theorem voiceActivityV2_eq_mem {st : ServerStateV2} {sid : String} {rid : Option String}
    {f : Option Bool} {room : RoomState} {u : User}
    (hg : mapGet st.activeRooms rid = some room) (hgu : mapGet room.members sid = some u) :
    voiceActivityV2 st sid rid f =
      { state := { connected := st.connected, activeRooms := mapSet st.activeRooms rid { room with members := mapSet room.members sid { u with isSpeaking := f } } },
        emits := [Emit.userSpeaking ((mapSet room.members sid { u with isSpeaking := f }).map Prod.fst) rid sid f],
        logs := [] } := by
  simp [voiceActivityV2, hg, hgu]

theorem disconnectV2_state_rooms (st : ServerStateV2) (sid : String) :
    (disconnectV2 st sid).state.activeRooms = (disconnectRoomsV2 st.activeRooms sid).1 := rfl

theorem stateWFV2_init : StateWFV2 initStateV2 := by
  refine ⟨?_, ?_, ?_⟩ <;> simp [initStateV2]

theorem stateWFV2_joinCircle {st : ServerStateV2} (h : StateWFV2 st) (sid : String)
    (rid u n : Option String) : StateWFV2 (joinCircleV2 st sid rid u n).state := by
  obtain ⟨hnd, hne, hkey⟩ := h
  refine ⟨?_, ?_, ?_⟩ <;> rw [joinCircleV2_state_rooms]
  · by_cases hh : mapHas st.activeRooms rid
    · rw [if_pos hh]
      exact nodup_map_fst_mapSet hnd
    · rw [if_neg hh]
      exact nodup_map_fst_mapSet (nodup_map_fst_mapSet hnd)
  · intro p hp
    by_cases hh : mapHas st.activeRooms rid
    · rw [if_pos hh] at hp
      rcases mem_mapSet hp with rfl | ⟨hp, hpk⟩
      · exact mapSet_ne_nil _ _ _
      · exact hne p hp
    · rw [if_neg hh] at hp
      rcases mem_mapSet hp with rfl | ⟨hp, hpk⟩
      · exact mapSet_ne_nil _ _ _
      · rcases mem_mapSet hp with rfl | ⟨hp2, hpk2⟩
        · exact absurd rfl hpk
        · exact hne p hp2
  · intro p hp q hq
    by_cases hh : mapHas st.activeRooms rid
    · rw [if_pos hh] at hp
      rcases mem_mapSet hp with rfl | ⟨hp, hpk⟩
      · rcases mem_mapSet hq with rfl | ⟨hq, hqk⟩
        · rfl
        · cases hg : mapGet st.activeRooms rid with
          | none => rw [hg] at hq; simp at hq
          | some room1 =>
            rw [hg] at hq
            exact hkey (rid, room1) (mapGet_mem hg) q hq
      · exact hkey p hp q hq
    · rw [if_neg hh] at hp
      rcases mem_mapSet hp with rfl | ⟨hp, hpk⟩
      · rcases mem_mapSet hq with rfl | ⟨hq, hqk⟩
        · rfl
        · rw [mapGet_mapSet_self] at hq
          simp at hq
      · rcases mem_mapSet hp with rfl | ⟨hp2, hpk2⟩
        · exact absurd rfl hpk
        · exact hkey p hp2 q hq

theorem stateWFV2_voiceActivity {st : ServerStateV2} (h : StateWFV2 st) (sid : String)
    (rid : Option String) (f : Option Bool) : StateWFV2 (voiceActivityV2 st sid rid f).state := by
  obtain ⟨hnd, hne, hkey⟩ := h
  cases hg : mapGet st.activeRooms rid with
  | none => rw [voiceActivityV2_eq_noroom hg]; exact ⟨hnd, hne, hkey⟩
  | some room =>
    cases hgu : mapGet room.members sid with
    | none => rw [voiceActivityV2_eq_nomem hg hgu]; exact ⟨hnd, hne, hkey⟩
    | some u =>
      rw [voiceActivityV2_eq_mem hg hgu]
      refine ⟨nodup_map_fst_mapSet hnd, ?_, ?_⟩
      · intro p hp
        rcases mem_mapSet hp with rfl | ⟨hp, hpk⟩
        · exact mapSet_ne_nil _ _ _
        · exact hne p hp
      · intro p hp q hq
        rcases mem_mapSet hp with rfl | ⟨hp, hpk⟩
        · rcases mem_mapSet hq with rfl | ⟨hq, hqk⟩
          · exact hkey (rid, room) (mapGet_mem hg) (sid, u) (mapGet_mem hgu)
          · exact hkey (rid, room) (mapGet_mem hg) q hq
        · exact hkey p hp q hq

theorem stateWFV2_disconnect {st : ServerStateV2} (h : StateWFV2 st) (sid : String) :
    StateWFV2 (disconnectV2 st sid).state := by
  obtain ⟨hnd, hne, hkey⟩ := h
  refine ⟨?_, ?_, ?_⟩ <;> rw [disconnectV2_state_rooms]
  · exact ((disconnectRoomsV2_keys_sublist st.activeRooms sid).nodup hnd)
  · intro p hp
    obtain ⟨p0, hp0, hk, hv⟩ := mem_disconnectRoomsV2 hp
    rcases hv with hv | ⟨hv, hlen⟩
    · rw [hv]; exact hne p0 hp0
    · intro hnil
      apply hlen
      rw [hv] at hnil
      simp only at hnil
      rw [hnil]
      rfl
  · intro p hp q hq
    obtain ⟨p0, hp0, hk, hv⟩ := mem_disconnectRoomsV2 hp
    rcases hv with hv | ⟨hv, _⟩
    · exact hkey p0 hp0 q (hv ▸ hq)
    · have hq2 : q ∈ mapDelete p0.2.members sid := by
        rw [hv] at hq
        exact hq
      exact hkey p0 hp0 q (mem_mapDelete hq2).1

theorem stateWFV2_step {st : ServerStateV2} (h : StateWFV2 st) (e : Event) :
    StateWFV2 (stepV2 st e).state := by
  cases e with
  | connect sid uid => exact h
  | joinCircle sid r u n => exact stateWFV2_joinCircle h sid r u n
  | voiceActivity sid r f => exact stateWFV2_voiceActivity h sid r f
  | sendWhisper p now db ok =>
    cases ok
    · exact h
    · exact h
  | disconnect sid => exact stateWFV2_disconnect h sid

theorem stateWFV2_runFrom {st : ServerStateV2} (h : StateWFV2 st) (es : List Event) :
    StateWFV2 (runFromV2 st es) := by
  induction es generalizing st with
  | nil => exact h
  | cons e es ih => exact ih (stateWFV2_step h e)

theorem stateWFV2_run (es : List Event) : StateWFV2 (runV2 es) :=
  stateWFV2_runFrom stateWFV2_init es

/-! ## Membership tracking per event (variant 1) -/

theorem memberB_joinCircle (st : ServerState) (c : String) (rid u n : Option String)
    (r : Option String) (s : String) :
    memberB (joinCircle st c rid u n).state r s =
      if rid = r ∧ c = s then true else memberB st r s := by
  unfold memberB roomMembers
  rw [joinCircle_state_rooms]
  by_cases hh : mapHas st.activeRooms rid
  · rw [if_pos hh]
    by_cases hr : rid = r
    · subst hr
      rw [mapGet_mapSet_self, Option.getD_some, mapHas_mapSet]
      by_cases hcs : c = s
      · subst hcs
        simp
      · have hsc : ¬ s = c := fun hc => hcs hc.symm
        have hand : ¬ (rid = rid ∧ c = s) := fun hc => hcs hc.2
        rw [if_neg hsc, if_neg hand]
    · have hrr : ¬ r = rid := fun hc => hr hc.symm
      have hand : ¬ (rid = r ∧ c = s) := fun hc => hr hc.1
      rw [mapGet_mapSet_ne _ _ _ _ hrr, if_neg hand]
  · rw [if_neg hh]
    by_cases hr : rid = r
    · subst hr
      rw [mapGet_mapSet_self, Option.getD_some, mapGet_mapSet_self, Option.getD_some,
        mapHas_mapSet, mapGet_eq_none_of_not_has (by simpa using hh), Option.getD_none]
      by_cases hcs : c = s
      · subst hcs
        simp
      · have hsc : ¬ s = c := fun hc => hcs hc.symm
        have hand : ¬ (rid = rid ∧ c = s) := fun hc => hcs hc.2
        rw [if_neg hsc, if_neg hand]
    · have hrr : ¬ r = rid := fun hc => hr hc.symm
      have hand : ¬ (rid = r ∧ c = s) := fun hc => hr hc.1
      rw [mapGet_mapSet_ne _ _ _ _ hrr, mapGet_mapSet_ne _ _ _ _ hrr, if_neg hand]

theorem memberB_voiceActivity (st : ServerState) (sid : String) (rid : Option String)
    (f : Option Bool) (r : Option String) (s : String) :
    memberB (voiceActivity st sid rid f).state r s = memberB st r s := by
  cases hg : mapGet st.activeRooms rid with
  | none => rw [voiceActivity_eq_noroom hg]
  | some room =>
    cases hgu : mapGet room sid with
    | none => rw [voiceActivity_eq_nomem hg hgu]
    | some u =>
      rw [voiceActivity_eq_mem hg hgu]
      unfold memberB roomMembers
      by_cases hr : rid = r
      · subst hr
        rw [mapGet_mapSet_self, Option.getD_some, mapHas_mapSet, hg, Option.getD_some]
        by_cases hs : s = sid
        · subst hs
          rw [if_pos rfl, mapHas_of_mapGet_some hgu]
        · rw [if_neg hs]
      · have hrr : ¬ r = rid := fun hc => hr hc.symm
        rw [mapGet_mapSet_ne _ _ _ _ hrr]

theorem memberB_disconnect {st : ServerState} (hnd : (st.activeRooms.map Prod.fst).Nodup)
    (sid : String) (r : Option String) (s : String) :
    memberB (disconnect st sid).state r s = if s = sid then false else memberB st r s := by
  unfold memberB roomMembers
  rw [disconnect_state_rooms]
  exact memberHas_disconnectRooms st.activeRooms sid r s hnd

theorem memberB_step {st : ServerState} (h : StateWF st) (e : Event)
    (r : Option String) (s : String) :
    memberB (step st e).state r s = memUpd r s (memberB st r s) e := by
  cases e with
  | connect sid uid => rfl
  | joinCircle sid rid u n => exact memberB_joinCircle st sid rid u n r s
  | voiceActivity sid rid f => exact memberB_voiceActivity st sid rid f r s
  | sendWhisper p now db ok => rfl
  | disconnect sid => exact memberB_disconnect h.1 sid r s

theorem memberB_runFrom (st : ServerState) (h : StateWF st) (es : List Event)
    (r : Option String) (s : String) :
    memberB (runFrom st es) r s = es.foldl (memUpd r s) (memberB st r s) := by
  induction es generalizing st with
  | nil => rfl
  | cons e es ih =>
    simp only [runFrom, List.foldl_cons]
    rw [← memberB_step h e r s]
    exact ih (step st e).state (stateWF_step h e)

/-! ## Claim theorems -/

/-- C2: for every sequence of join, leave, and disconnect events applied to an
initially empty presence table, the member set recorded for any room `r`
equals exactly the set of connections that have joined `r` and have not yet
left or disconnected.  The server has no standalone leave event: the spec's
`leave` is invoked only from the disconnect cascade, so leaving is the
disconnect of the connection. -/
theorem presence_members_characterization (es : List Event) (r : Option String) (s : String) :
    memberB (run es) r s = joinedNotDeparted es r s :=
  memberB_runFrom initState stateWF_init es r s

/-- C5: in every state of the presence table reachable by any sequence of
join, speaking-change, and disconnect events, no room with zero members is
present in the table, in either server variant; a room whose last member is
removed is therefore absent from subsequent lookups. -/
theorem no_empty_room_retained (es : List Event) :
    ((run es).activeRooms.all (fun p => !p.2.isEmpty)) = true ∧
    ((runV2 es).activeRooms.all (fun p => !p.2.members.isEmpty)) = true := by
  constructor
  · rw [List.all_eq_true]
    intro p hp
    have hne := (stateWF_run es).2.1 p hp
    cases h2 : p.2 with
    | nil => exact absurd h2 hne
    | cons a l => rfl
  · rw [List.all_eq_true]
    intro p hp
    have hne := (stateWFV2_run es).2.1 p hp
    cases h2 : p.2.members with
    | nil => exact absurd h2 hne
    | cons a l => rfl

/-- C9: in every reachable state of the presence table, for every room and
every key in that room's member map, the stored member record's `socketId`
field equals the key, in either server variant. -/
theorem member_key_socketId_consistent (es : List Event) :
    ((run es).activeRooms.all (fun p => p.2.all (fun q => q.2.socketId == q.1))) = true ∧
    ((runV2 es).activeRooms.all
      (fun p => p.2.members.all (fun q => q.2.socketId == q.1))) = true := by
  constructor
  · rw [List.all_eq_true]
    intro p hp
    rw [List.all_eq_true]
    intro q hq
    simpa using (stateWF_run es).2.2 p hp q hq
  · rw [List.all_eq_true]
    intro p hp
    rw [List.all_eq_true]
    intro q hq
    simpa using (stateWFV2_run es).2.2 p hp q hq

/-- C10: handling a send_whisper event leaves the room presence table
completely unchanged, for every input payload and every starting state, in
either server variant. -/
theorem send_whisper_preserves_presence (st : ServerState) (st2 : ServerStateV2)
    (msgData : WhisperPayload) (now : Nat) (dbConnected persistOk : Bool) :
    (sendWhisper st msgData now dbConnected persistOk).state.activeRooms = st.activeRooms ∧
    (sendWhisperV2 st2 msgData persistOk).state.activeRooms = st2.activeRooms := by
  constructor
  · rfl
  · cases persistOk <;> rfl

/-- C6: a speaking-change event naming a room the connection is not currently
a member of is a no-op in both server variants: it creates no member entry,
mutates no state, and triggers no broadcast. -/
theorem voice_activity_nonmember_noop (st : ServerState) (st2 : ServerStateV2)
    (sid : String) (rid : Option String) (f : Option Bool)
    (h1 : memberB st rid sid = false) (h2 : memberBV2 st2 rid sid = false) :
    voiceActivity st sid rid f = { state := st, emits := [], logs := [] } ∧
    voiceActivityV2 st2 sid rid f = { state := st2, emits := [], logs := [] } := by
  constructor
  · cases hg : mapGet st.activeRooms rid with
    | none => exact voiceActivity_eq_noroom hg
    | some room =>
      cases hgu : mapGet room sid with
      | none => exact voiceActivity_eq_nomem hg hgu
      | some u =>
        exfalso
        have hmem : memberB st rid sid = true := by
          unfold memberB roomMembers
          rw [hg, Option.getD_some]
          exact mapHas_of_mapGet_some hgu
        simp [hmem] at h1
  · cases hg : mapGet st2.activeRooms rid with
    | none => exact voiceActivityV2_eq_noroom hg
    | some room =>
      cases hgu : mapGet room.members sid with
      | none => exact voiceActivityV2_eq_nomem hg hgu
      | some u =>
        exfalso
        have hmem : memberBV2 st2 rid sid = true := by
          unfold memberBV2 roomMembersV2
          rw [hg, Option.getD_some]
          exact mapHas_of_mapGet_some hgu
        simp [hmem] at h2

/-- Witness for C6: a concrete speaking-change for a room nobody has joined
is dropped by both variants. -/
theorem voice_activity_nonmember_noop_witness :
    voiceActivity { connected := [("s1", "a")], activeRooms := [] } "s1" (some "R") (some true) =
      { state := { connected := [("s1", "a")], activeRooms := [] }, emits := [], logs := [] } ∧
    voiceActivityV2 { connected := [("s1", "a")], activeRooms := [] } "s1" (some "R")
        (some true) =
      { state := { connected := [("s1", "a")], activeRooms := [] }, emits := [], logs := [] } :=
  voice_activity_nonmember_noop _ _ _ _ _ rfl rfl

theorem length_filterMap_ite {α γ : Type} (l : List α) (q : α → Bool) (g : α → γ) :
    (l.filterMap (fun a => if q a then some (g a) else none)).length =
      (l.filter q).length := by
  induction l with
  | nil => rfl
  | cons a l ih =>
    by_cases hq : q a <;> simp [List.filterMap_cons, List.filter_cons, hq, ih]

theorem disconnect_broadcasts (st : ServerState) (sid : String) :
    (disconnect st sid).emits = st.activeRooms.filterMap (fun p =>
      if mapHas p.2 sid then
        some (Emit.presenceUpdate ((mapDelete p.2 sid).map Prod.fst) p.1
          ((mapDelete p.2 sid).map Prod.snd))
      else none) := by
  rw [disconnect_emits]
  exact disconnectRooms_emits st.activeRooms sid

/-- C4: a join_circle emits exactly one presence_update carrying the full
post-event member list of the joined room, targeted at the room's post-event
member connections (including the joiner); a disconnect emits exactly one
presence_update per room the socket was a member of — each carrying that
room's remaining members and targeted at them — and none for other rooms;
on reachable states every such broadcast excludes the disconnected member
both from its targets and from its payload; disconnecting a socket that is a
member of three rooms yields exactly three presence_update broadcasts. -/
theorem presence_broadcast_per_membership_event :
    (∀ (st : ServerState) (sid : String) (rid u n : Option String),
      (joinCircle st sid rid u n).emits =
        [Emit.presenceUpdate
          ((roomMembers (joinCircle st sid rid u n).state rid).map Prod.fst) rid
          ((roomMembers (joinCircle st sid rid u n).state rid).map Prod.snd)]) ∧
    (∀ (st : ServerState) (sid : String),
      (disconnect st sid).emits = st.activeRooms.filterMap (fun p =>
        if mapHas p.2 sid then
          some (Emit.presenceUpdate ((mapDelete p.2 sid).map Prod.fst) p.1
            ((mapDelete p.2 sid).map Prod.snd))
        else none)) ∧
    (∀ (es : List Event) (sid : String),
      (disconnect (run es) sid).emits.length =
        ((run es).activeRooms.filter (fun p => mapHas p.2 sid)).length ∧
      ((disconnect (run es) sid).emits.all (presenceExcludes sid)) = true) ∧
    ((disconnect (run [Event.connect "c" "u1", Event.connect "d" "u2",
        Event.connect "e" "u3", Event.connect "f" "u4",
        Event.joinCircle "c" (some "R1") (some "u1") (some "C"),
        Event.joinCircle "d" (some "R1") (some "u2") (some "D"),
        Event.joinCircle "c" (some "R2") (some "u1") (some "C"),
        Event.joinCircle "e" (some "R2") (some "u3") (some "E"),
        Event.joinCircle "c" (some "R3") (some "u1") (some "C"),
        Event.joinCircle "f" (some "R3") (some "u4") (some "F")]) "c").emits.length = 3) := by
  refine ⟨?_, disconnect_broadcasts, ?_, ?_⟩
  · intro st sid rid u n
    unfold roomMembers
    rw [joinCircle_state_rooms, mapGet_mapSet_self, Option.getD_some]
    rfl
  · intro es sid
    constructor
    · rw [disconnect_broadcasts]
      exact length_filterMap_ite _ _ _
    · obtain ⟨hnd, hne, hkey⟩ := stateWF_run es
      rw [disconnect_broadcasts, List.all_eq_true]
      intro e he
      obtain ⟨p, hp, hpe⟩ := List.mem_filterMap.1 he
      by_cases hm : mapHas p.2 sid
      · rw [if_pos hm] at hpe
        obtain rfl := Option.some.inj hpe
        rw [presenceExcludes, Bool.and_eq_true, List.all_eq_true, List.all_eq_true]
        constructor
        · intro t ht
          obtain ⟨q, hq, rfl⟩ := List.mem_map.1 ht
          have hqd := mem_mapDelete hq
          simpa using hqd.2
        · intro m hm2
          obtain ⟨q, hq, rfl⟩ := List.mem_map.1 hm2
          have hqd := mem_mapDelete hq
          have hqk := hkey p hp q hqd.1
          simp only [decide_eq_true_eq]
          rw [hqk]
          exact hqd.2
      · rw [if_neg hm] at hpe
        simp at hpe
  · decide

/-- C1 (amended): the relay publishes every whisper to every connected
socket (`io.emit` broadcasts globally), under the event name built from the
receiver identity; since each client registers a whisper listener only for
its own identity's inbox event, the connections that handle the packet are
exactly the connections registered under the receiver identity `b`. -/
theorem whisper_handled_by_receiver_sessions (st : ServerState)
    (s c t sh : Option String) (now : Nat) (db ok : Bool) (b : String) :
    (sendWhisper st ⟨s, some b, c, t, sh⟩ now db ok).emits =
      [Emit.whisperInbox (st.connected.map Prod.fst) ("whisper_inbox_" ++ b)
        { senderId := jsOr s "", receiverId := jsOr (some b) "", cipherText := jsOr c "",
          timestamp := now, type := jsOr t "text", sharedCircleId := sh, isRead := false }] ∧
    handlerSet st ("whisper_inbox_" ++ b) = registeredUnder st b := by
  constructor
  · rfl
  · unfold handlerSet registeredUnder
    congr 1
    apply List.filter_congr
    intro x hx
    unfold listensTo
    by_cases hxb : x.2 = b
    · rw [hxb]
      simp
    · have hne : ¬ ("whisper_inbox_" ++ x.2 = "whisper_inbox_" ++ b) := fun hc => by
        apply hxb
        apply String.ext
        have hd := congrArg String.data hc
        rw [String.data_append, String.data_append] at hd
        exact List.append_cancel_left hd
      have e1 : ("whisper_inbox_" ++ x.2 == "whisper_inbox_" ++ b) = false :=
        beq_eq_false_iff_ne.2 hne
      have e2 : (x.2 == b) = false := beq_eq_false_iff_ne.2 hxb
      rw [e1, e2]

/-- C1 counterexample: with two connected sessions registered under the
distinct identities a and b, a whisper to b is published to both sockets —
the publish set is all connections, not exactly b's subscribed sessions. -/
theorem whisper_publish_set_counterexample :
    ((sendWhisper (run [Event.connect "s1" "a", Event.connect "s2" "b"])
        ⟨some "a", some "b", some "hi", some "text", none⟩ 7 true true).emits.map emitTargets)
      = [["s1", "s2"]] ∧
    registeredUnder (run [Event.connect "s1" "a", Event.connect "s2" "b"]) "b" = ["s2"] ∧
    ¬ (([["s1", "s2"]] : List (List String)) = [["s2"]]) := by
  refine ⟨rfl, ?_, by decide⟩
  decide

/-- C3: variant 1 publishes the whisper whether or not the persistence write
succeeds, and a failing write only adds the error log line; in variant 2 the
forward sits after the awaited save inside the same try, so at a concrete
input a failing save suppresses the emit entirely while a succeeding save
forwards it — the code-bug evidence for this claim. -/
theorem whisper_forward_on_persist_failure :
    (∀ (st : ServerState) (msgData : WhisperPayload) (now : Nat) (db : Bool),
      (sendWhisper st msgData now db false).emits =
        (sendWhisper st msgData now db true).emits ∧
      (sendWhisper st msgData now true false).logs = ["Error saving message:"]) ∧
    (sendWhisperV2 { connected := [("s1", "a"), ("s2", "b")], activeRooms := [] }
        ⟨some "a", some "b", some "x", some "text", none⟩ false).emits = [] ∧
    ¬ ((sendWhisperV2 { connected := [("s1", "a"), ("s2", "b")], activeRooms := [] }
        ⟨some "a", some "b", some "x", some "text", none⟩ true).emits = []) := by
  refine ⟨fun st msgData now db => ⟨rfl, rfl⟩, rfl, by decide⟩

/-- C7 counterexample: a join_circle whose payload is missing roomId is not
dropped — it mutates the presence table (a room stored under the missing key
appears) and emits a presence_update broadcast. -/
theorem malformed_join_counterexample :
    ¬ ((joinCircle (run [Event.connect "s1" "a"]) "s1" none (some "a") (some "Al")).state
        = run [Event.connect "s1" "a"]) ∧
    ¬ ((joinCircle (run [Event.connect "s1" "a"]) "s1" none (some "a") (some "Al")).emits
        = []) := by
  decide

/-- C7 (amended): an event with a missing required field is processed, not
dropped: a join with no roomId creates or updates the room stored under the
missing key and broadcasts exactly once; a whisper with no receiverId is
still forwarded, on the inbox topic for the stringified undefined id, with
empty-string field defaults; in both cases the connection is not torn down
(the registry and, for the whisper, the whole state are unchanged). -/
theorem malformed_events_processed_not_dropped (st : ServerState) (sid : String)
    (u n s c t sh : Option String) (now : Nat) (db ok : Bool) :
    (joinCircle st sid none u n).state.connected = st.connected ∧
    (joinCircle st sid none u n).emits.length = 1 ∧
    memberB (joinCircle st sid none u n).state none sid = true ∧
    (sendWhisper st ⟨s, none, c, t, sh⟩ now db ok).state = st ∧
    (sendWhisper st ⟨s, none, c, t, sh⟩ now db ok).emits =
      [Emit.whisperInbox (st.connected.map Prod.fst) "whisper_inbox_undefined"
        { senderId := jsOr s "", receiverId := "", cipherText := jsOr c "",
          timestamp := now, type := jsOr t "text", sharedCircleId := sh, isRead := false }] := by
  refine ⟨rfl, rfl, ?_, rfl, rfl⟩
  rw [memberB_joinCircle]
  simp

/-- C8 counterexample: in the second variant, joining the same room twice
with the same connectionId leaves the stored member record without an
isSpeaking field (JS undefined, embedded as none) — not with
isSpeaking = false as the claim states. -/
theorem rejoin_isSpeaking_counterexample :
    mapGet (roomMembersV2 (joinCircleV2 (joinCircleV2 initStateV2 "c" (some "R") (some "u1")
        (some "N1")).state "c" (some "R") (some "u2") (some "N2")).state (some "R")) "c" =
      some { socketId := "c", userId := some "u2", name := some "N2", isSpeaking := none } ∧
    ¬ ((mapGet (roomMembersV2 (joinCircleV2 (joinCircleV2 initStateV2 "c" (some "R")
        (some "u1") (some "N1")).state "c" (some "R") (some "u2") (some "N2")).state
        (some "R")) "c").map User.isSpeaking = some (some false)) := by
  decide

/-- C8 (amended): a second join with the same connectionId is idempotent on
the room's member key set and overwrites the member record with the latest
userId and displayName; variant 1 additionally resets isSpeaking to false,
while variant 2 stores the record without an isSpeaking field (undefined). -/
theorem rejoin_idempotent_last_write (st : ServerState) (st2 : ServerStateV2) (c : String)
    (rid u2 n2 : Option String) (h1 : memberB st rid c = true)
    (h2 : memberBV2 st2 rid c = true) :
    (roomMembers (joinCircle st c rid u2 n2).state rid).map Prod.fst =
      (roomMembers st rid).map Prod.fst ∧
    mapGet (roomMembers (joinCircle st c rid u2 n2).state rid) c =
      some { socketId := c, userId := u2, name := n2, isSpeaking := some false } ∧
    (roomMembersV2 (joinCircleV2 st2 c rid u2 n2).state rid).map Prod.fst =
      (roomMembersV2 st2 rid).map Prod.fst ∧
    mapGet (roomMembersV2 (joinCircleV2 st2 c rid u2 n2).state rid) c =
      some { socketId := c, userId := u2, name := n2, isSpeaking := none } := by
  have hh1 : mapHas st.activeRooms rid = true := by
    by_cases hh : mapHas st.activeRooms rid
    · exact hh
    · exfalso
      unfold memberB roomMembers at h1
      rw [mapGet_eq_none_of_not_has (by simpa using hh), Option.getD_none] at h1
      simp [mapHas] at h1
  have hh2 : mapHas st2.activeRooms rid = true := by
    by_cases hh : mapHas st2.activeRooms rid
    · exact hh
    · exfalso
      unfold memberBV2 roomMembersV2 at h2
      rw [mapGet_eq_none_of_not_has (by simpa using hh), Option.getD_none] at h2
      simp [mapHas] at h2
  have hroom : roomMembers (joinCircle st c rid u2 n2).state rid =
      mapSet (roomMembers st rid) c
        { socketId := c, userId := u2, name := n2, isSpeaking := some false } := by
    unfold roomMembers
    rw [joinCircle_state_rooms, if_pos hh1, mapGet_mapSet_self, Option.getD_some]
  have hroom2 : roomMembersV2 (joinCircleV2 st2 c rid u2 n2).state rid =
      mapSet (roomMembersV2 st2 rid) c
        { socketId := c, userId := u2, name := n2, isSpeaking := none } := by
    unfold roomMembersV2
    rw [joinCircleV2_state_rooms, if_pos hh2, mapGet_mapSet_self, Option.getD_some]
  refine ⟨?_, ?_, ?_, ?_⟩
  · rw [hroom]
    exact map_fst_mapSet_of_has _ _ _ h1
  · rw [hroom]
    exact mapGet_mapSet_self _ _ _
  · rw [hroom2]
    exact map_fst_mapSet_of_has _ _ _ h2
  · rw [hroom2]
    exact mapGet_mapSet_self _ _ _

/-- Witness for C8 (amended), at a concrete double join in variant 2. -/
theorem rejoin_idempotent_last_write_witness :
    mapGet (roomMembersV2 (joinCircleV2 (joinCircleV2 { connected := [("c", "u")], activeRooms := [] } "c" (some "R") (some "u1") (some "N1")).state "c" (some "R")
        (some "u2") (some "N2")).state (some "R")) "c" =
      some { socketId := "c", userId := some "u2", name := some "N2", isSpeaking := none } :=
  (rejoin_idempotent_last_write
    (joinCircle { connected := [("c", "u")], activeRooms := [] } "c" (some "R") (some "u1")
      (some "N1")).state
    (joinCircleV2 { connected := [("c", "u")], activeRooms := [] } "c" (some "R") (some "u1")
      (some "N1")).state
    "c" (some "R") (some "u2") (some "N2") (by decide) (by decide)).2.2.2

end Unheard
